import Mathlib

/-!
# multi-thread-Downloader: bounded task queue and chunk planner

Shallow embedding of `src/queue.c` and of the planning part of `src/http.c`.

Platform assumptions (Linux, glibc, LP64): `int` is 32 bits, `size_t` and
pointers are 64 bits, `SEM_VALUE_MAX` is `INT_MAX`, `malloc` serves every request
up to `PTRDIFF_MAX`.  Strings and buffers are lists of bytes (`List Char`).  Reads
of bytes the program never wrote (the uninitialised array `Worker`, what follows the
unterminated receive buffer) take them from a `Memory` parameter; other undefined
behaviour and aborted runs are results `none`.
-/

namespace Downloader

/-! ## Machine integers -/

/-- Largest value of a C `int`. -/
def INT_MAX : Int := 2147483647

/-- Largest value a POSIX semaphore holds under glibc. -/
def SEM_VALUE_MAX : Nat := 2147483647

/-- Conversion of a mathematical integer to a 32-bit two's-complement `int`. -/
def wrap_int (x : Int) : Int := (x + 2147483648) % 4294967296 - 2147483648

/-- Conversion of an `int` to `size_t` (64-bit unsigned). -/
def to_size_t (x : Int) : Nat := (x % 18446744073709551616).toNat

/-- Conversion of an `int` to `unsigned int`. -/
def to_unsigned (x : Int) : Nat := (x % 4294967296).toNat

/-! ## Semaphores

A semaphore is `some v` with counter `v`, or `none` when `sem_init` failed and
left it uninitialised. -/

/-- Model of `sem_init(&s, 0, value)`: fails with `EINVAL` above `SEM_VALUE_MAX`. -/
def sem_init (value : Nat) : Option Nat :=
  if value ≤ SEM_VALUE_MAX then some value else none

/-- Model of `sem_post`: increments, except at `SEM_VALUE_MAX` (`EOVERFLOW`). -/
def sem_post (s : Option Nat) : Option Nat :=
  s.map (fun v => if v < SEM_VALUE_MAX then v + 1 else v)

/-! ## The queue (`src/queue.c`) -/

/-- The record `struct QueueStruct`.  The mutex is not a field: every operation
below is one atomic step, which is what the mutex provides.  A slot of `data`
holds `none` while it is uninitialised memory. -/
structure Queue (α : Type) where
  size : Nat
  enqueue : Option Nat
  dequeue : Option Nat
  data : List (Option α)
  head : Int
  tail : Int
deriving DecidableEq

/-- The write `data[i] = item`.  Outside the buffer the write is undefined in C
and modelled as having no effect; the index invariant below shows it never occurs. -/
def write_slot {α : Type} (data : List (Option α)) (i : Int) (item : α) : List (Option α) :=
  if 0 ≤ i then data.set i.toNat (some item) else data

/-- The read `data[i]`.  Outside the buffer the read is undefined in C and
modelled as an indeterminate value (`none`). -/
def read_slot {α : Type} (data : List (Option α)) (i : Int) : Option α :=
  if 0 ≤ i then (data.get? i.toNat).join else none

/-- The index update `(i + 1) % queue->size`: the sum is an `int`, the remainder is
taken in `size_t`, the result is stored in an `int`. -/
def next_index (i : Int) (size : Nat) : Int :=
  wrap_int (((to_size_t (wrap_int (i + 1)) % size : Nat) : Int))

/-- Largest allocation glibc `malloc` serves (`PTRDIFF_MAX`). -/
def PTRDIFF_MAX : Nat := 9223372036854775807

/-- Model of `malloc(bytes)` for an array of pointers (8 bytes each): glibc refuses
a request above `PTRDIFF_MAX` and returns NULL, which has no slot; any other
request is assumed to succeed and its slots are uninitialised. -/
def malloc_slots {α : Type} (bytes : Nat) : List (Option α) :=
  if bytes ≤ PTRDIFF_MAX then List.replicate (bytes / 8) none else []

/-- Model of `queue_alloc(size)`.  The function has a single exit, `return queue`;
`none` would stand for a rejected request. -/
def queue_alloc {α : Type} (size : Int) : Option (Queue α) :=
  some
    { size := to_size_t size
      data := malloc_slots (to_size_t size * 8 % 18446744073709551616)
      head := 0
      tail := 0
      enqueue := sem_init (to_unsigned size)
      dequeue := sem_init 0 }

/-- Model of `queue_put(queue, item)` as one atomic step.  The result is `none`
when `sem_wait(&queue->enqueue)` cannot return (counter zero; an uninitialised
semaphore is treated the same way). -/
def queue_put {α : Type} (queue : Queue α) (item : α) : Option (Queue α) :=
  match queue.enqueue with
  | some (n + 1) =>
    some
      { queue with
        enqueue := some n
        data := write_slot queue.data queue.tail item
        tail := next_index queue.tail queue.size
        dequeue := sem_post queue.dequeue }
  | _ => none

/-- Model of `queue_get(queue)` as one atomic step: the returned item and the new
queue, or `none` when `sem_wait(&queue->dequeue)` cannot return. -/
def queue_get {α : Type} (queue : Queue α) : Option (Option α × Queue α) :=
  match queue.dequeue with
  | some (n + 1) =>
    some
      (read_slot queue.data queue.head,
       { queue with
         dequeue := some n
         head := next_index queue.head queue.size
         enqueue := sem_post queue.enqueue })
  | _ => none

/-- One queue operation requested by some thread. -/
inductive Op (α : Type) where
  | put (item : α)
  | get
deriving DecidableEq

/-- A queue together with its history: the items of the completed `queue_put`
calls and the values returned by the completed `queue_get` calls, both in
completion order. -/
structure Run (α : Type) where
  queue : Queue α
  puts : List α
  gets : List (Option α)
deriving DecidableEq

/-- The run that starts at a freshly allocated queue. -/
def Run.start {α : Type} (queue : Queue α) : Run α :=
  { queue := queue, puts := [], gets := [] }

/-- Number of items held: completed puts minus completed gets. -/
def Run.held {α : Type} (s : Run α) : Nat := s.puts.length - s.gets.length

/-- One atomic step; `none` when the operation is not enabled. -/
def step {α : Type} (s : Run α) : Op α → Option (Run α)
  | Op.put item =>
    match queue_put s.queue item with
    | some q => some { queue := q, puts := s.puts ++ [item], gets := s.gets }
    | none => none
  | Op.get =>
    match queue_get s.queue with
    | some (item, q) => some { queue := q, puts := s.puts, gets := s.gets ++ [item] }
    | none => none

/-- A finite sequence of atomic steps; `none` when one of them is not enabled. -/
def run {α : Type} (s : Run α) : List (Op α) → Option (Run α)
  | [] => some s
  | op :: ops =>
    match step s op with
    | some s' => run s' ops
    | none => none

/-- Representation invariant of a run on a queue of capacity `C`. -/
structure QueueInv {α : Type} (C : Nat) (s : Run α) : Prop where
  size_eq : s.queue.size = C
  len : s.queue.data.length = C
  gets_le : s.gets.length ≤ s.puts.length
  held_le : s.puts.length ≤ s.gets.length + C
  enq : s.queue.enqueue = some (C - (s.puts.length - s.gets.length))
  deq : s.queue.dequeue = some (s.puts.length - s.gets.length)
  head_eq : s.queue.head = ((s.gets.length % C : Nat) : Int)
  tail_eq : s.queue.tail = ((s.puts.length % C : Nat) : Int)
  slots : ∀ i, s.gets.length ≤ i → i < s.puts.length →
    s.queue.data[i % C]? = some (s.puts[i]?)
  fifo : s.gets = (s.puts.take s.gets.length).map some

/-! ## The chunk planner (`src/http.c`)

Memory is a `List Char` of bytes.  A C string that starts at a pointer is the bytes
up to the first NUL; the end of a list stands for a NUL as well. -/

/-- The constant `BUF_SIZE`. -/
def BUF_SIZE : Nat := 1024

/-- The terminator of a C string. -/
def NUL : Char := Char.ofNat 0

/-- The C string that starts at the front of some memory: the bytes before the
first NUL. -/
def c_string (mem : List Char) : List Char := mem.takeWhile (fun c => c != NUL)

/-- Model of `strstr(haystack, needle)` on memory: the bytes from the first
occurrence of `needle` on, or `none` (NULL).  The search ends at the first NUL of
`haystack`. -/
def strstr : List Char → List Char → Option (List Char)
  | [], needle => if needle.isPrefixOf [] then some [] else none
  | c :: cs, needle =>
    if needle.isPrefixOf (c :: cs) then some (c :: cs)
    else if c = NUL then none
    else strstr cs needle

/-- The C library predicate `isspace` in the "C" locale. -/
def isspace (c : Char) : Bool :=
  c = ' ' || c = '\t' || c = '\n' || c = '\x0b' || c = '\x0c' || c = '\r'

/-- Value of the longest run of decimal digits at the front of a string. -/
def digits_value : List Char → Nat → Nat
  | [], acc => acc
  | c :: cs, acc =>
    if c.isDigit then digits_value cs (acc * 10 + (c.toNat - 48)) else acc

/-- Model of glibc `atoi`, which is `(int) strtol(s, NULL, 10)`: white space, an
optional sign, digits; `strtol` saturates at the range of `long` and the cast keeps
the low 32 bits.  The scan stops at the first byte that is no digit. -/
def atoi (s : List Char) : Int :=
  let body := s.dropWhile isspace
  let value : Int :=
    match body with
    | '-' :: rest => max (-(digits_value rest 0 : Int)) (-9223372036854775808)
    | '+' :: rest => min (digits_value rest 0 : Int) 9223372036854775807
    | _ => min (digits_value body 0 : Int) 9223372036854775807
  wrap_int value

/-- Whether the scan of `atoi` stops inside the array `buf`: after the white space
and an optional sign, some byte of `buf` is no digit. -/
def atoi_stops_inside (buf : List Char) : Bool :=
  let body := buf.dropWhile isspace
  let digits :=
    match body with
    | '-' :: rest => rest
    | '+' :: rest => rest
    | _ => body
  !(digits.dropWhile Char.isDigit).isEmpty

/-- One request written to a socket: the peer, the port and the bytes sent. -/
structure Request where
  host : List Char
  port : Nat
  message : List Char
deriving DecidableEq

/-- The network as seen through `create_connection`, `http_write` and `http_read`:
the bytes the peer sends back before it closes the connection, or `none` when a
socket call fails and its `assert` stops the process.  -/
abbrev Server := Request → Option (List Char)

/-- The state outside the functions: the global `max_chunk_size` (declared in
`http.h`, which is not among the sources; an `int`, as `get_max_chunk_size` returns
it), the requests sent so far and the lines written to `stderr`. -/
structure World where
  max_chunk_size : Int
  sent : List Request
  stderr : List (List Char)
deriving DecidableEq

/-- Bytes a call of `get_num_tasks` reads without having written them:
`worker` is what the array `char Worker[25]` holds when it is declared (25 bytes of
the stack), `after_buffer` is what follows the receive buffer in memory, up to the
first NUL (`http_read` sizes the buffer to the bytes received and writes no
terminator). -/
structure Memory where
  worker : List Char
  after_buffer : List Char
deriving DecidableEq

/-- Memory in which a call reads nothing stale: `Worker` is all NUL and a NUL
follows the receive buffer. -/
def Memory.zeroed : Memory :=
  { worker := List.replicate 25 NUL, after_buffer := [] }

/-- The splitting code shared by `http_url` (lines 162-167) and `get_num_tasks`
(lines 188-194), on the string copied to `host`: find the first "/", cut `host`
there and let `page` start right after it; `page` is `none` (NULL) when there is
no "/". -/
def split_host_page (host : List Char) : List Char × Option (List Char) :=
  match strstr host "/".toList with
  | some page => (host.take (host.length - page.length), some (page.drop 1))
  | none => (host, none)

/-- Model of `http_query`: format the GET request into `message[1024]` (`none` when
it does not fit), exchange it with the peer and return the received buffer. -/
def http_query (server : Server) (host page range : List Char) (port : Nat) (world : World) :
    Option (List Char × World) :=
  let message := "GET /".toList ++ c_string page ++ " HTTP/1.0\r\nHost: ".toList ++
    c_string host ++ "\r\nRange: bytes=".toList ++ c_string range ++
    "\r\nUser-Agent: getter\r\n\r\n".toList
  if message.length < 1024 then
    match server { host := c_string host, port := port, message := message } with
    | some data =>
      some (data,
        { world with
          sent := world.sent ++ [{ host := c_string host, port := port, message := message }] })
    | none => none
  else none

/-- Model of `http_url`: the returned pointer (`none` is NULL) and the new state.  The
outer `none` is a run that does not return: the string `url` does not fit
`host[BUF_SIZE]` with its terminator, or `http_query` does not return. -/
def http_url (server : Server) (url range : List Char) (world : World) :
    Option (Option (List Char) × World) :=
  if (c_string url).length < BUF_SIZE then
    match split_host_page (c_string url) with
    | (host, some page) =>
      match http_query server host page range 80 world with
      | some (data, world') => some (some data, world')
      | none => none
    | (_, none) =>
      some (none, { world with
        stderr := world.stderr ++
          ["could not split url into host/page ".toList ++ c_string url ++ "\n".toList] })
  else none

/-- Lines 186-217 of `get_num_tasks`: split the URL, report a URL without "/" on
`stderr` and carry on with `page = NULL`, format the HEAD request (glibc prints a
NULL `%s` argument as "(null)"), exchange it with the peer on port 80.  Returns the
received bytes; `none` when the run does not get that far. -/
def head_probe (server : Server) (url : List Char) (world : World) :
    Option (List Char × World) :=
  if (c_string url).length < BUF_SIZE then
    let (host, page) := split_host_page (c_string url)
    let world1 : World :=
      match page with
      | some _ => world
      | none => { world with
          stderr := world.stderr ++
            ["could not split url into host/page ".toList ++ c_string url ++ "\n".toList] }
    let message := "HEAD /".toList ++ page.getD "(null)".toList ++
      " HTTP/1.0\r\nHost: ".toList ++ host ++ "\r\n\r\n".toList
    if message.length < 1024 then
      match server { host := host, port := 80, message := message } with
      | some data =>
        some (data,
          { world1 with sent := world1.sent ++ [{ host := host, port := 80, message := message }] })
      | none => none
    else none
  else none

/-- Lines 219-227 of `get_num_tasks`: the `int length`, read from the memory `mem`
at `output->data` with `worker` the bytes `Worker[25]` holds beforehand.  `strncpy`
copies the `n = End - Start` bytes of the field and writes no terminator, so `atoi`
goes on into the old bytes of `Worker` behind the field.  `none` when the run does
not get that far: no "Content-Length: " (NULL is advanced and dereferenced), no
"\r\n" after it, a field longer than `Worker`, or a scan of `atoi` that leaves the
array. -/
def content_length (worker : List Char) (mem : List Char) : Option Int :=
  match strstr mem "Content-Length: ".toList with
  | none => none
  | some found =>
    let Start := found.drop "Content-Length: ".toList.length
    match strstr Start "\r\n".toList with
    | none => none
    | some End =>
      let n := Start.length - End.length
      if n ≤ 25 then
        let Worker := Start.take n ++ (worker.drop n).take (25 - n)
        if atoi_stops_inside Worker then some (atoi Worker) else none
      else none

/-- Model of `get_num_tasks(url, threads)`: the returned number of tasks and the new
state, or `none` when the run does not return.  Both searches and the parse read
the memory at `output->data`: the bytes received followed by `memory.after_buffer`.
The division traps for `threads = 0` and for `INT_MIN / -1`; the sum is reduced to
an `int`. -/
def get_num_tasks (server : Server) (memory : Memory) (url : List Char) (threads : Int)
    (world : World) : Option (Int × World) :=
  match head_probe server url world with
  | none => none
  | some (data, world1) =>
    match content_length memory.worker (data ++ memory.after_buffer) with
    | none => none
    | some length =>
      if strstr (data ++ memory.after_buffer) "Accept-Ranges: bytes".toList = none then
        some (1, { world1 with max_chunk_size := length })
      else if threads = 0 ∨ (length = -2147483648 ∧ threads = -1) then none
      else some (threads, { world1 with max_chunk_size := wrap_int (Int.tdiv length threads + 1) })

/-- Model of `get_max_chunk_size()`. -/
def get_max_chunk_size (world : World) : Int := world.max_chunk_size

/-- The state before the first call: the global is zero-initialised. -/
def World.initial : World := { max_chunk_size := 0, sent := [], stderr := [] }

/-- A peer that answers every request with the same bytes. -/
def fixed_server (response : List Char) : Server := fun _ => some response

/-- A response that declares 1000 bytes and range support. -/
def response_1000_ranges : List Char :=
  "HTTP/1.0 200 OK\r\nContent-Length: 1000\r\nAccept-Ranges: bytes\r\n\r\n".toList

/-- A response that declares 10 bytes and no range support. -/
def response_10_plain : List Char :=
  "HTTP/1.0 200 OK\r\nContent-Length: 10\r\n\r\n".toList

/-- A response that declares 0 bytes and no range support. -/
def response_0_plain : List Char :=
  "HTTP/1.0 200 OK\r\nContent-Length: 0\r\n\r\n".toList

/-- A response that declares 0 bytes and range support. -/
def response_0_ranges : List Char :=
  "HTTP/1.0 200 OK\r\nContent-Length: 0\r\nAccept-Ranges: bytes\r\n\r\n".toList

/-- The state after the probe of "example.com/file.bin" from the initial state. -/
def world_after_probe : World :=
  { max_chunk_size := 0
    sent := [{ host := "example.com".toList, port := 80,
               message := "HEAD /file.bin HTTP/1.0\r\nHost: example.com\r\n\r\n".toList }]
    stderr := [] }

/-- Memory as a call that parsed "123456" leaves it for the next one: `Worker` still
holds those digits, and the end of an earlier, longer response follows the receive
buffer. -/
def memory_after_earlier_call : Memory :=
  { worker := "123456".toList ++ List.replicate 19 NUL
    after_buffer := "Accept-Ranges: bytes\r\n\r\n".toList }

/-! ## Bounded queue: theorems -/

theorem wrap_int_id (x : Int) (h0 : 0 ≤ x) (h1 : x ≤ 2147483647) : wrap_int x = x := by
  unfold wrap_int; omega

theorem to_size_t_id (x : Int) (h0 : 0 ≤ x) (h1 : x ≤ 2147483647) : to_size_t x = x.toNat := by
  unfold to_size_t; omega

theorem next_index_mod (C n : Nat) (hC : 1 ≤ C) (hM : C ≤ 2147483647) :
    next_index ((n % C : Nat) : Int) C = (((n + 1) % C : Nat) : Int) := by
  have hlt : n % C < C := Nat.mod_lt _ (by omega)
  have hlt2 : (n + 1) % C < C := Nat.mod_lt _ (by omega)
  have e1 : wrap_int (((n % C : Nat) : Int) + 1) = ((n % C + 1 : Nat) : Int) := by
    rw [wrap_int_id _ (by omega) (by omega)]; rfl
  have e2 : to_size_t ((n % C + 1 : Nat) : Int) = n % C + 1 := by
    rw [to_size_t_id _ (by omega) (by omega)]; rfl
  unfold next_index
  rw [e1, e2, Nat.mod_add_mod, wrap_int_id _ (by omega) (by omega)]

theorem mod_ne_of_lt (C i n : Nat) (h1 : i < n) (h2 : n < i + C) : i % C ≠ n % C := by
  intro h
  have := Nat.sub_mod_eq_zero_of_mod_eq h.symm
  rw [Nat.mod_eq_of_lt (by omega)] at this
  omega

theorem write_slot_nat {α : Type} (data : List (Option α)) (n : Nat) (item : α) :
    write_slot data (n : Int) item = data.set n (some item) := by
  simp [write_slot]

theorem read_slot_nat {α : Type} (data : List (Option α)) (n : Nat) :
    read_slot data (n : Int) = (data[n]?).join := by
  simp [read_slot, List.get?_eq_getElem?]

theorem inv_start {α : Type} (C : Nat) (hM : C ≤ 2147483647) (q : Queue α)
    (h : queue_alloc (C : Int) = some q) : QueueInv C (Run.start q) := by
  have hs : to_size_t (C : Int) = C := by
    rw [to_size_t_id _ (by omega) (by omega)]; rfl
  have hu : to_unsigned (C : Int) = C := by unfold to_unsigned; omega
  unfold queue_alloc at h
  rw [hs, hu] at h
  have hq := (Option.some.inj h).symm
  subst hq
  constructor <;> simp [Run.start, sem_init, SEM_VALUE_MAX, malloc_slots, PTRDIFF_MAX]
  · rw [Nat.mod_eq_of_lt (by omega)]
    split
    · simp
    · omega
  · omega

theorem inv_put {α : Type} (C : Nat) (hC : 1 ≤ C) (hM : C ≤ 2147483647) (s : Run α)
    (item : α) (q : Queue α) (hI : QueueInv C s) (h : queue_put s.queue item = some q) :
    s.puts.length < s.gets.length + C ∧
      QueueInv C { queue := q, puts := s.puts ++ [item], gets := s.gets } := by
  obtain ⟨h1, h2, h3, h4, h5, h6, h7, h8, h9, h10⟩ := hI
  unfold queue_put at h
  rw [h5] at h
  cases hn : C - (s.puts.length - s.gets.length) with
  | zero => rw [hn] at h; simp at h
  | succ n =>
    rw [hn] at h
    simp only [Option.some.injEq] at h
    subst h
    have hlt : s.puts.length < s.gets.length + C := by omega
    refine ⟨hlt, ?_⟩
    have hmod : s.puts.length % C < C := Nat.mod_lt _ (by omega)
    constructor
    · exact h1
    · simp only [h8, write_slot_nat, List.length_set]
      exact h2
    · simpa using Nat.le_succ_of_le h3
    · simp; omega
    · simp; omega
    · simp only [h6, sem_post, SEM_VALUE_MAX, Option.map_some', List.length_append,
        List.length_singleton]
      congr 1
      split <;> omega
    · exact h7
    · simp only [h8, h1, List.length_append, List.length_singleton]
      exact next_index_mod C _ hC hM
    · intro i hi1 hi2
      dsimp only at hi1 hi2 ⊢
      simp only [List.length_append, List.length_singleton] at hi2
      simp only [h8, write_slot_nat, List.getElem?_set]
      by_cases hi : i = s.puts.length
      · subst hi
        simp [h2, hmod]
      · have hne : s.puts.length % C ≠ i % C :=
          (mod_ne_of_lt C i s.puts.length (by omega) (by omega)).symm
        rw [if_neg hne, h9 i hi1 (by omega), List.getElem?_append_left (by omega)]
    · simp only
      rw [List.take_append_of_le_length h3]
      exact h10

theorem inv_get {α : Type} (C : Nat) (hC : 1 ≤ C) (hM : C ≤ 2147483647) (s : Run α)
    (item : Option α) (q : Queue α) (hI : QueueInv C s) (h : queue_get s.queue = some (item, q)) :
    s.gets.length < s.puts.length ∧ item = s.puts[s.gets.length]? ∧
      QueueInv C { queue := q, puts := s.puts, gets := s.gets ++ [item] } := by
  obtain ⟨h1, h2, h3, h4, h5, h6, h7, h8, h9, h10⟩ := hI
  unfold queue_get at h
  rw [h6] at h
  cases hn : s.puts.length - s.gets.length with
  | zero => rw [hn] at h; simp at h
  | succ n =>
    rw [hn] at h
    simp only [Option.some.injEq, Prod.mk.injEq] at h
    obtain ⟨hitem, hq⟩ := h
    subst hq
    have hlt : s.gets.length < s.puts.length := by omega
    have hread : item = s.puts[s.gets.length]? := by
      rw [← hitem]
      simp only [h7, read_slot_nat]
      rw [h9 s.gets.length (le_refl _) hlt]
      rfl
    refine ⟨hlt, hread, ?_⟩
    constructor
    · exact h1
    · exact h2
    · simp; omega
    · simp; omega
    · simp only [h5, sem_post, SEM_VALUE_MAX, Option.map_some', List.length_append,
        List.length_singleton]
      congr 1
      split <;> omega
    · simp; omega
    · simp only [h7, h1, List.length_append, List.length_singleton]
      exact next_index_mod C _ hC hM
    · exact h8
    · intro i hi1 hi2
      dsimp only at hi1 hi2 ⊢
      simp only [List.length_append, List.length_singleton] at hi1
      exact h9 i (by omega) hi2
    · simp only [List.length_append, List.length_singleton]
      rw [List.take_succ, List.map_append, ← h10, hread, List.getElem?_eq_getElem hlt]
      rfl

theorem inv_step {α : Type} (C : Nat) (hC : 1 ≤ C) (hM : C ≤ 2147483647) (s s' : Run α)
    (op : Op α) (hI : QueueInv C s) (h : step s op = some s') : QueueInv C s' := by
  cases op with
  | put item =>
    simp only [step] at h
    cases hq : queue_put s.queue item with
    | none => rw [hq] at h; simp at h
    | some q =>
      rw [hq] at h
      simp only [Option.some.injEq] at h
      subst h
      exact (inv_put C hC hM s item q hI hq).2
  | get =>
    simp only [step] at h
    cases hq : queue_get s.queue with
    | none => rw [hq] at h; simp at h
    | some r =>
      obtain ⟨item, q⟩ := r
      rw [hq] at h
      simp only [Option.some.injEq] at h
      subst h
      exact (inv_get C hC hM s item q hI hq).2.2

theorem inv_run {α : Type} (C : Nat) (hC : 1 ≤ C) (hM : C ≤ 2147483647) (ops : List (Op α)) :
    ∀ s s' : Run α, QueueInv C s → run s ops = some s' → QueueInv C s' := by
  induction ops with
  | nil =>
    intro s s' hI h
    simp only [run, Option.some.injEq] at h
    subst h
    exact hI
  | cons op ops ih =>
    intro s s' hI h
    simp only [run] at h
    cases hs : step s op with
    | none => rw [hs] at h; simp at h
    | some s1 =>
      rw [hs] at h
      exact ih s1 s' (inv_step C hC hM s s1 op hI hs) h

theorem inv_reachable {α : Type} (C : Nat) (hC : 1 ≤ C) (hM : (C : Int) ≤ INT_MAX)
    (q : Queue α) (ops : List (Op α)) (s : Run α)
    (hq : queue_alloc (C : Int) = some q) (hr : run (Run.start q) ops = some s) :
    QueueInv C s := by
  have hM' : C ≤ 2147483647 := by unfold INT_MAX at hM; omega
  exact inv_run C hC hM' ops _ s (inv_start C hM' q hq) hr

theorem put_blocked_of_full {α : Type} (C : Nat) (s : Run α) (hI : QueueInv C s)
    (hfull : s.puts.length - s.gets.length = C) (item : α) :
    queue_put s.queue item = none := by
  unfold queue_put
  rw [hI.enq, hfull, Nat.sub_self]

theorem get_blocked_of_empty {α : Type} (C : Nat) (s : Run α) (hI : QueueInv C s)
    (hempty : s.puts.length - s.gets.length = 0) :
    queue_get s.queue = none := by
  unfold queue_get
  rw [hI.deq, hempty]

/-- Claim C1. FIFO, nothing lost or duplicated: in every run of atomic `queue_put` /
`queue_get` steps on a queue returned by `queue_alloc C` with `1 ≤ C` (a C `int`), the
`k`-th completed `queue_get` returned exactly the item of the `k`-th completed
`queue_put`, and the items returned so far are a prefix of the items put so far. -/
theorem queue_fifo {α : Type} (C : Nat) (q : Queue α) (ops : List (Op α)) (s : Run α)
    (hC : 1 ≤ C) (hM : (C : Int) ≤ INT_MAX)
    (hq : queue_alloc (C : Int) = some q) (hr : run (Run.start q) ops = some s) :
    (∀ k, k < s.gets.length → ∃ x, s.puts[k]? = some x ∧ s.gets[k]? = some (some x)) ∧
      ∃ rest, s.puts.map some = s.gets ++ rest := by
  have hI := inv_reachable C hC hM q ops s hq hr
  constructor
  · intro k hk
    have hk' : k < s.puts.length := lt_of_lt_of_le hk hI.gets_le
    refine ⟨s.puts[k], List.getElem?_eq_getElem hk', ?_⟩
    rw [hI.fifo, List.getElem?_map, List.getElem?_take_of_lt hk,
      List.getElem?_eq_getElem hk']
    rfl
  · refine ⟨(s.puts.drop s.gets.length).map some, ?_⟩
    calc s.puts.map some
        = (s.puts.take s.gets.length ++ s.puts.drop s.gets.length).map some := by
          rw [List.take_append_drop]
      _ = (s.puts.take s.gets.length).map some ++ (s.puts.drop s.gets.length).map some :=
          List.map_append _ _ _
      _ = s.gets ++ (s.puts.drop s.gets.length).map some := by rw [← hI.fifo]

/-- Witness of `queue_fifo`: capacity 2, the run put 5, put 6, get, put 7, get. -/
theorem queue_fifo_witness :
    (∀ k, k < 2 → ∃ x, [5, 6, 7][k]? = some x ∧ [some 5, some 6][k]? = some (some x)) ∧
      ∃ rest, [5, 6, 7].map some = [some 5, some 6] ++ rest :=
  queue_fifo 2
    { size := 2, enqueue := some 2, dequeue := some 0, data := [none, none], head := 0, tail := 0 }
    [Op.put 5, Op.put 6, Op.get, Op.put 7, Op.get]
    { queue :=
        { size := 2, enqueue := some 1, dequeue := some 1, data := [some 7, some 6],
          head := 0, tail := 1 }
      puts := [5, 6, 7]
      gets := [some 5, some 6] }
    (by decide) (by decide) (by decide) (by decide)

/-- Claim C2. Occupancy invariant: in every state reachable from `queue_alloc C`,
`1 ≤ C`, the number of items held (completed puts minus completed gets) lies in
`[0, C]`, the enqueue semaphore is `C - held` and the dequeue semaphore is `held`;
`queue_put` cannot proceed while `held = C`, `queue_get` cannot proceed while
`held = 0`; for `C = 1` a second `queue_put` right after the first is not enabled,
and it is enabled once a `queue_get` has been performed. -/
theorem queue_occupancy {α : Type} (C : Nat) (q : Queue α) (ops : List (Op α)) (s : Run α)
    (hC : 1 ≤ C) (hM : (C : Int) ≤ INT_MAX)
    (hq : queue_alloc (C : Int) = some q) (hr : run (Run.start q) ops = some s) :
    s.gets.length ≤ s.puts.length ∧ s.held ≤ C ∧
      s.queue.enqueue = some (C - s.held) ∧ s.queue.dequeue = some s.held ∧
      (s.held = C → ∀ item, queue_put s.queue item = none) ∧
      (s.held = 0 → queue_get s.queue = none) ∧
      (C = 1 → ∀ x y : α, run (Run.start q) [Op.put x, Op.put y] = none ∧
        (run (Run.start q) [Op.put x, Op.get, Op.put y]).isSome = true) := by
  have hI := inv_reachable C hC hM q ops s hq hr
  refine ⟨hI.gets_le, ?_, hI.enq, hI.deq, ?_, ?_, ?_⟩
  · have := hI.held_le
    unfold Run.held
    omega
  · intro hfull item
    exact put_blocked_of_full C s hI hfull item
  · intro hempty
    exact get_blocked_of_empty C s hI hempty
  · intro h1 x y
    subst h1
    have hq' := (Option.some.inj hq).symm
    subst hq'
    constructor <;> rfl

/-- Witness of `queue_occupancy`: capacity 1 after one `queue_put`. -/
theorem queue_occupancy_witness :
    (0 : Nat) ≤ 1 ∧ (1 : Nat) ≤ 1 ∧ some 0 = some (1 - 1) ∧ some 1 = some 1 ∧
      ((1 : Nat) = 1 → ∀ item : Nat,
        queue_put
          { size := 1, enqueue := some 0, dequeue := some 1, data := [some 7],
            head := 0, tail := 0 } item = none) ∧
      ((1 : Nat) = 0 →
        queue_get
          ({ size := 1, enqueue := some 0, dequeue := some 1, data := [some 7],
             head := 0, tail := 0 } : Queue Nat) = none) ∧
      ((1 : Nat) = 1 → ∀ x y : Nat,
        run
          (Run.start
            { size := 1, enqueue := some 1, dequeue := some 0, data := [none],
              head := 0, tail := 0 })
          [Op.put x, Op.put y] = none ∧
        (run
          (Run.start
            { size := 1, enqueue := some 1, dequeue := some 0, data := [none],
              head := 0, tail := 0 })
          [Op.put x, Op.get, Op.put y]).isSome = true) :=
  queue_occupancy 1
    { size := 1, enqueue := some 1, dequeue := some 0, data := [none], head := 0, tail := 0 }
    [Op.put 7]
    { queue :=
        { size := 1, enqueue := some 0, dequeue := some 1, data := [some 7],
          head := 0, tail := 0 }
      puts := [7]
      gets := [] }
    (by decide) (by decide) (by decide) (by decide)

theorem natCast_mod_int (a C : Nat) : ((a % C : Nat) : Int) = (a : Int) % (C : Int) :=
  Int.natCast_mod a C

/-- Claim C10. Ring-buffer indices stay in bounds: in every state reachable from
`queue_alloc C`, `1 ≤ C`, the buffer has `C` slots, `0 ≤ head < C`, `0 ≤ tail < C`,
`(tail - head) mod C = held mod C`, the items put and not yet returned sit in the
slots `head, head + 1, ...` (mod `C`), and the slot an enabled `queue_put` writes is
none of them, so they are all still there after the write. -/
theorem ring_indices_in_bounds {α : Type} (C : Nat) (q : Queue α) (ops : List (Op α))
    (s : Run α) (hC : 1 ≤ C) (hM : (C : Int) ≤ INT_MAX)
    (hq : queue_alloc (C : Int) = some q) (hr : run (Run.start q) ops = some s) :
    s.queue.data.length = C ∧
      0 ≤ s.queue.head ∧ s.queue.head < C ∧ 0 ≤ s.queue.tail ∧ s.queue.tail < C ∧
      (s.queue.tail - s.queue.head) % (C : Int) = (s.held : Int) % (C : Int) ∧
      (∀ j : Nat, j < s.held →
        read_slot s.queue.data ((s.queue.head + j) % (C : Int)) = s.puts[s.gets.length + j]? ∧
        s.puts[s.gets.length + j]?.isSome = true) ∧
      (∀ item q', queue_put s.queue item = some q' →
        ∀ j : Nat, j < s.held →
          (s.queue.head + j) % (C : Int) ≠ s.queue.tail ∧
          read_slot q'.data ((s.queue.head + j) % (C : Int)) = s.puts[s.gets.length + j]?) := by
  have hI := inv_reachable C hC hM q ops s hq hr
  have hM' : C ≤ 2147483647 := by unfold INT_MAX at hM; omega
  have hh : s.queue.head < C := by
    rw [hI.head_eq]; exact_mod_cast Nat.mod_lt _ (by omega)
  have ht : s.queue.tail < C := by
    rw [hI.tail_eq]; exact_mod_cast Nat.mod_lt _ (by omega)
  have hslot : ∀ j : Nat, (s.queue.head + j) % (C : Int) = (((s.gets.length + j) % C : Nat) : Int) := by
    intro j
    rw [hI.head_eq, natCast_mod_int, natCast_mod_int, Int.emod_add_emod]
    push_cast
    rfl
  refine ⟨hI.len, ?_, hh, ?_, ht, ?_, ?_, ?_⟩
  · rw [hI.head_eq]; exact Int.ofNat_nonneg _
  · rw [hI.tail_eq]; exact Int.ofNat_nonneg _
  · rw [hI.head_eq, hI.tail_eq, natCast_mod_int, natCast_mod_int, ← Int.sub_emod]
    unfold Run.held
    rw [Int.ofNat_sub hI.gets_le]
  · intro j hj
    unfold Run.held at hj
    have hj' : s.gets.length + j < s.puts.length := by omega
    constructor
    · rw [hslot, read_slot_nat, hI.slots _ (by omega) hj']
      rfl
    · rw [List.getElem?_eq_getElem hj']; rfl
  · intro item q' hput j hj
    unfold Run.held at hj
    have hj' : s.gets.length + j < s.puts.length := by omega
    obtain ⟨hlt, hI'⟩ := inv_put C hC hM' s item q' hI hput
    constructor
    · rw [hslot, hI.tail_eq]
      intro h
      exact mod_ne_of_lt C (s.gets.length + j) s.puts.length hj' (by omega) (by exact_mod_cast h)
    · rw [hslot, read_slot_nat]
      have := hI'.slots (s.gets.length + j) (by simp) (by simp; omega)
      simp only at this
      rw [this, List.getElem?_append_left hj']
      rfl

/-- Witness of `ring_indices_in_bounds`: capacity 2 after put 5, put 6, get, put 7, get;
the queue then has `head = 0`, `tail = 1` and holds one item. -/
theorem ring_indices_in_bounds_witness :
    (1 : Nat) ≤ 2 ∧ ((2 : Nat) : Int) ≤ INT_MAX ∧
      ([some 7, some 6] : List (Option Nat)).length = 2 ∧
      (0 : Int) ≤ 0 ∧ (0 : Int) < (2 : Nat) ∧ (0 : Int) ≤ 1 ∧ (1 : Int) < (2 : Nat) ∧
      ((1 : Int) - 0) % ((2 : Nat) : Int) = ((1 : Nat) : Int) % ((2 : Nat) : Int) :=
  have h := ring_indices_in_bounds 2
    { size := 2, enqueue := some 2, dequeue := some 0, data := [none, none], head := 0, tail := 0 }
    [Op.put 5, Op.put 6, Op.get, Op.put 7, Op.get]
    { queue :=
        { size := 2, enqueue := some 1, dequeue := some 1, data := [some 7, some 6],
          head := 0, tail := 1 }
      puts := [5, 6, 7]
      gets := [some 5, some 6] }
    (by decide) (by decide) (by decide) (by decide)
  ⟨by decide, by decide, h.1, h.2.1, h.2.2.1, h.2.2.2.1, h.2.2.2.2.1, h.2.2.2.2.2.1⟩

/-- Claim C7, refuted as stated: `queue_alloc(0)` is not rejected, it returns a queue
(with no slot and both semaphores at zero). -/
theorem queue_alloc_zero_returns_queue :
    (queue_alloc 0 : Option (Queue Nat)) ≠ none ∧
      (queue_alloc 0 : Option (Queue Nat)) =
        some { size := 0, enqueue := some 0, dequeue := some 0, data := [], head := 0, tail := 0 } := by
  constructor
  · simp [queue_alloc]
  · decide

/-- Claim C7, amended: `queue_alloc` has no capacity check.  For every `int` value
`size ≤ 0` it returns a queue: the size field is `(size_t) size`, `head = tail = 0`,
the buffer has no slot, the dequeue semaphore is 0 so `queue_get` never proceeds; for
`size = 0` the enqueue semaphore is 0 so `queue_put` never proceeds either; for
`size < 0` the `sem_init` of the enqueue semaphore fails. -/
theorem queue_alloc_no_capacity_check {α : Type} (size : Int) (hle : size ≤ 0)
    (hmin : -INT_MAX - 1 ≤ size) :
    ∃ q : Queue α, queue_alloc size = some q ∧ q.size = to_size_t size ∧
      q.head = 0 ∧ q.tail = 0 ∧ q.data = [] ∧ q.dequeue = some 0 ∧ queue_get q = none ∧
      (size = 0 → q.enqueue = some 0 ∧ ∀ item, queue_put q item = none) ∧
      (size < 0 → q.enqueue = none) := by
  unfold INT_MAX at hmin
  have hdata : (malloc_slots (to_size_t size * 8 % 18446744073709551616) : List (Option α)) = [] := by
    unfold malloc_slots to_size_t PTRDIFF_MAX
    split
    · rename_i h
      have h0 : size = 0 := by omega
      subst h0
      rfl
    · rfl
  refine ⟨_, rfl, rfl, rfl, rfl, hdata, rfl, rfl, ?_, ?_⟩
  · intro h0
    subst h0
    exact ⟨rfl, fun _ => rfl⟩
  · intro hneg
    show sem_init (to_unsigned size) = none
    unfold sem_init to_unsigned SEM_VALUE_MAX
    rw [if_neg (by omega)]

/-- Witness of `queue_alloc_no_capacity_check` at `size = 0`. -/
theorem queue_alloc_no_capacity_check_witness :
    ∃ q : Queue Nat, queue_alloc 0 = some q ∧ q.size = to_size_t 0 ∧
      q.head = 0 ∧ q.tail = 0 ∧ q.data = [] ∧ q.dequeue = some 0 ∧ queue_get q = none ∧
      ((0 : Int) = 0 → q.enqueue = some 0 ∧ ∀ item, queue_put q item = none) ∧
      ((0 : Int) < 0 → q.enqueue = none) :=
  queue_alloc_no_capacity_check 0 (by decide) (by decide)

/-! ## Chunk planner: theorems -/

theorem strstr_cons (c : Char) (cs needle : List Char) :
    strstr (c :: cs) needle =
      if needle.isPrefixOf (c :: cs) then some (c :: cs)
      else if c = NUL then none
      else strstr cs needle := rfl

theorem get_num_tasks_no_ranges (server : Server) (memory : Memory) (url : List Char)
    (threads : Int) (world : World) (data : List Char) (world1 : World) (L : Int)
    (hprobe : head_probe server url world = some (data, world1))
    (hlen : content_length memory.worker (data ++ memory.after_buffer) = some L)
    (hranges : strstr (data ++ memory.after_buffer) "Accept-Ranges: bytes".toList = none) :
    get_num_tasks server memory url threads world =
      some (1, { world1 with max_chunk_size := L }) := by
  simp only [get_num_tasks, hprobe, hlen, hranges, if_true]

theorem get_num_tasks_ranges (server : Server) (memory : Memory) (url : List Char)
    (threads : Int) (world : World) (data : List Char) (world1 : World) (L : Int)
    (hprobe : head_probe server url world = some (data, world1))
    (hlen : content_length memory.worker (data ++ memory.after_buffer) = some L)
    (hranges : strstr (data ++ memory.after_buffer) "Accept-Ranges: bytes".toList ≠ none)
    (h0 : 0 ≤ L) (hw : 1 ≤ threads) (hfit : L / threads + 1 ≤ INT_MAX) :
    get_num_tasks server memory url threads world =
      some (threads, { world1 with max_chunk_size := L / threads + 1 }) := by
  have hdiv : Int.tdiv L threads = L / threads := Int.tdiv_eq_ediv h0 (by omega)
  have hq : 0 ≤ L / threads := Int.ediv_nonneg h0 (by omega)
  unfold INT_MAX at hfit
  have hwrap : wrap_int (L / threads + 1) = L / threads + 1 :=
    wrap_int_id _ (by omega) hfit
  have hcond : ¬ (threads = 0 ∨ (L = -2147483648 ∧ threads = -1)) := by omega
  simp only [get_num_tasks, hprobe, hlen, if_neg hranges, if_neg hcond, hdiv, hwrap]

/-- The parse reads the old bytes of `Worker` behind the copied field: with "123456"
left there, the field "10" is read as 103456. -/
theorem content_length_reads_old_worker_bytes :
    content_length memory_after_earlier_call.worker response_10_plain = some 103456 ∧
      content_length Memory.zeroed.worker response_10_plain = some 10 := by
  constructor <;> decide

/-- The searches read the bytes that follow the receive buffer: with the end of an
earlier response there, a response without the header is planned as one with range
support. -/
theorem search_reads_bytes_after_buffer :
    strstr response_10_plain "Accept-Ranges: bytes".toList = none ∧
      get_num_tasks (fixed_server response_10_plain)
          { worker := List.replicate 25 NUL, after_buffer := memory_after_earlier_call.after_buffer }
          "example.com/file.bin".toList 3 World.initial =
        some (3, { world_after_probe with max_chunk_size := 4 }) := by
  constructor <;> decide

/-- Claim C5, refuted as stated: for `L = 1000` and `w = 4` with range support the
stored chunk size is 251, while `ceil(1000 / 4) = 250`. -/
theorem chunk_size_not_ceiling :
    ∃ world2,
      get_num_tasks (fixed_server response_1000_ranges) Memory.zeroed
        "example.com/file.bin".toList 4 World.initial = some (4, world2) ∧
      get_max_chunk_size world2 = 251 ∧
      get_max_chunk_size world2 ≠ ⌈(1000 : ℚ) / (4 : ℚ)⌉ := by
  refine ⟨{ world_after_probe with max_chunk_size := 251 }, by decide, rfl, ?_⟩
  have h : ⌈(1000 : ℚ) / (4 : ℚ)⌉ = 250 := by norm_num
  rw [h]
  decide

theorem ceil_quotient (L w : Int) (hw : 1 ≤ w) :
    ⌈(L : ℚ) / (w : ℚ)⌉ = if w ∣ L then L / w else L / w + 1 := by
  have hwq : (0 : ℚ) < (w : ℚ) := by exact_mod_cast (by omega : (0 : Int) < w)
  have hdm := Int.ediv_add_emod L w
  have hm0 := Int.emod_nonneg L (by omega : w ≠ 0)
  have hm1 := Int.emod_lt_of_pos L (by omega : 0 < w)
  split
  · rename_i hd
    have hz : L % w = 0 := Int.emod_eq_zero_of_dvd hd
    rw [Int.ceil_eq_iff, lt_div_iff₀ hwq, div_le_iff₀ hwq]
    constructor
    · have : (L / w - 1) * w < L := by nlinarith
      exact_mod_cast this
    · have : L ≤ (L / w) * w := by nlinarith
      exact_mod_cast this
  · rename_i hd
    have hz : L % w ≠ 0 := fun h => hd (Int.dvd_of_emod_eq_zero h)
    rw [Int.ceil_eq_iff, lt_div_iff₀ hwq, div_le_iff₀ hwq]
    constructor
    · have : (L / w + 1 - 1) * w < L := by
        have : 0 < L % w := by omega
        nlinarith
      exact_mod_cast this
    · have : L ≤ (L / w + 1) * w := by nlinarith
      exact_mod_cast this

/-- Claim C5, amended: whenever `get_num_tasks` takes the range-support branch (its
search of the string at the receive buffer finds "Accept-Ranges: bytes") with parsed
length `L ≥ 0`, `w ≥ 1` and `floor(L / w) + 1` within `int`, the stored chunk size
is `floor(L / w) + 1`; that is `ceil(L / w)` when `w` does not divide `L` and
`ceil(L / w) + 1` when it does. -/
theorem chunk_size_floor_plus_one (server : Server) (memory : Memory) (url : List Char)
    (w : Int) (world : World) (data : List Char) (world1 : World) (L : Int)
    (hprobe : head_probe server url world = some (data, world1))
    (hranges : strstr (data ++ memory.after_buffer) "Accept-Ranges: bytes".toList ≠ none)
    (hlen : content_length memory.worker (data ++ memory.after_buffer) = some L)
    (h0 : 0 ≤ L) (hw : 1 ≤ w) (hfit : L / w + 1 ≤ INT_MAX) :
    ∃ world2, get_num_tasks server memory url w world = some (w, world2) ∧
      get_max_chunk_size world2 = L / w + 1 ∧
      (¬ w ∣ L → get_max_chunk_size world2 = ⌈(L : ℚ) / (w : ℚ)⌉) ∧
      (w ∣ L → get_max_chunk_size world2 = ⌈(L : ℚ) / (w : ℚ)⌉ + 1) := by
  refine ⟨_, get_num_tasks_ranges server memory url w world data world1 L hprobe hlen hranges
    h0 hw hfit, rfl, ?_, ?_⟩
  · intro hd
    rw [ceil_quotient L w hw, if_neg hd]
    rfl
  · intro hd
    rw [ceil_quotient L w hw, if_pos hd]
    rfl

/-- Witness of `chunk_size_floor_plus_one`: `L = 1000`, `w = 4`. -/
theorem chunk_size_floor_plus_one_witness :
    ∃ world2,
      get_num_tasks (fixed_server response_1000_ranges) Memory.zeroed
        "example.com/file.bin".toList 4 World.initial = some (4, world2) ∧
      get_max_chunk_size world2 = 1000 / 4 + 1 ∧
      (¬ (4 : Int) ∣ 1000 → get_max_chunk_size world2 = ⌈((1000 : Int) : ℚ) / ((4 : Int) : ℚ)⌉) ∧
      ((4 : Int) ∣ 1000 → get_max_chunk_size world2 = ⌈((1000 : Int) : ℚ) / ((4 : Int) : ℚ)⌉ + 1) :=
  chunk_size_floor_plus_one (fixed_server response_1000_ranges) Memory.zeroed
    "example.com/file.bin".toList 4 World.initial response_1000_ranges world_after_probe 1000
    (by decide) (by decide) (by decide) (by decide) (by decide) (by decide)

/-- Claim C6, refuted as stated: a probe response whose Content-Length parses to 0
does not make `get_num_tasks` fail; without range support it returns chunk count 1
and publishes chunk size 0. -/
theorem zero_size_is_planned :
    content_length Memory.zeroed.worker (response_0_plain ++ Memory.zeroed.after_buffer) =
        some 0 ∧
      get_num_tasks (fixed_server response_0_plain) Memory.zeroed
        "example.com/file.bin".toList 3 World.initial =
          some (1, { world_after_probe with max_chunk_size := 0 }) ∧
      get_num_tasks (fixed_server response_0_plain) Memory.zeroed
        "example.com/file.bin".toList 3 World.initial ≠ none := by
  refine ⟨by decide, by decide, by decide⟩

/-- Claim C6, amended: when the code parses the probe's Content-Length to 0,
`get_num_tasks` returns a plan instead of failing: on the branch without range
support it returns chunk count 1 and publishes chunk size 0 for every worker count
`w`; on the branch with range support and `w ≠ 0` it returns chunk count `w` and
publishes chunk size 1. -/
theorem zero_size_plan (server : Server) (memory : Memory) (url : List Char) (w : Int)
    (world : World) (data : List Char) (world1 : World)
    (hprobe : head_probe server url world = some (data, world1))
    (hlen : content_length memory.worker (data ++ memory.after_buffer) = some 0) :
    (strstr (data ++ memory.after_buffer) "Accept-Ranges: bytes".toList = none →
      ∃ world2, get_num_tasks server memory url w world = some (1, world2) ∧
        get_max_chunk_size world2 = 0) ∧
    (strstr (data ++ memory.after_buffer) "Accept-Ranges: bytes".toList ≠ none → w ≠ 0 →
      ∃ world2, get_num_tasks server memory url w world = some (w, world2) ∧
        get_max_chunk_size world2 = 1) := by
  constructor
  · intro hranges
    exact ⟨_, get_num_tasks_no_ranges server memory url w world data world1 0 hprobe hlen
      hranges, rfl⟩
  · intro hranges hw
    have hcond : ¬ (w = 0 ∨ ((0 : Int) = -2147483648 ∧ w = -1)) := by omega
    refine ⟨{ world1 with max_chunk_size := 1 }, ?_, rfl⟩
    simp only [get_num_tasks, hprobe, hlen, if_neg hranges, if_neg hcond, Int.zero_tdiv]
    rfl

/-- Witness of `zero_size_plan`: a response that declares 0 bytes and range support,
`w = 3`. -/
theorem zero_size_plan_witness :
    (strstr (response_0_ranges ++ Memory.zeroed.after_buffer) "Accept-Ranges: bytes".toList =
        none →
      ∃ world2,
        get_num_tasks (fixed_server response_0_ranges) Memory.zeroed
          "example.com/file.bin".toList 3 World.initial = some (1, world2) ∧
        get_max_chunk_size world2 = 0) ∧
    (strstr (response_0_ranges ++ Memory.zeroed.after_buffer) "Accept-Ranges: bytes".toList ≠
        none → (3 : Int) ≠ 0 →
      ∃ world2,
        get_num_tasks (fixed_server response_0_ranges) Memory.zeroed
          "example.com/file.bin".toList 3 World.initial = some (3, world2) ∧
        get_max_chunk_size world2 = 1) :=
  zero_size_plan (fixed_server response_0_ranges) Memory.zeroed "example.com/file.bin".toList 3
    World.initial response_0_ranges world_after_probe (by decide) (by decide)

theorem strstr_slash_none (s : List Char) (h : '/' ∉ s) :
    strstr s "/".toList = none := by
  induction s with
  | nil => rfl
  | cons c cs ih =>
    have hc : c ≠ '/' := fun e => h (by simp [e])
    have hcs : '/' ∉ cs := fun e => h (by simp [e])
    have hne : ('/' == c) = false := by simpa using fun e => hc e.symm
    have hp : List.isPrefixOf "/".toList (c :: cs) = false := by
      show List.isPrefixOf ['/'] (c :: cs) = false
      simp only [List.isPrefixOf, hne, Bool.false_and]
    rw [strstr_cons, hp, ih hcs]
    simp

theorem strstr_slash_some (s : List Char) (h : '/' ∈ s) (hn : NUL ∉ s) :
    ∃ host page, strstr s "/".toList = some ('/' :: page) ∧ s = host ++ '/' :: page ∧
      '/' ∉ host := by
  induction s with
  | nil => simp at h
  | cons c cs ih =>
    by_cases hc : c = '/'
    · subst hc
      refine ⟨[], cs, ?_, rfl, by simp⟩
      have hp : List.isPrefixOf "/".toList ('/' :: cs) = true := by
        show List.isPrefixOf ['/'] ('/' :: cs) = true
        simp [List.isPrefixOf]
      rw [strstr_cons, hp]
      simp
    · have hcs : '/' ∈ cs := by
        rcases List.mem_cons.mp h with e | e
        · exact absurd e.symm hc
        · exact e
      have hn0 : c ≠ NUL := fun e => hn (by simp [e])
      have hn1 : NUL ∉ cs := fun e => hn (by simp [e])
      obtain ⟨host, page, h1, h2, h3⟩ := ih hcs hn1
      have hne : ('/' == c) = false := by simpa using fun e => hc e.symm
      have hp : List.isPrefixOf "/".toList (c :: cs) = false := by
        show List.isPrefixOf ['/'] (c :: cs) = false
        simp only [List.isPrefixOf, hne, Bool.false_and]
      refine ⟨c :: host, page, ?_, by rw [h2]; rfl, ?_⟩
      · rw [strstr_cons, hp, if_neg hn0, h1]
        simp
      · intro hm
        rcases List.mem_cons.mp hm with e | e
        · exact hc e.symm
        · exact h3 e

theorem c_string_no_nul (mem : List Char) : NUL ∉ c_string mem := by
  intro h
  have := List.mem_takeWhile_imp h
  simp at this

/-- The part of claim C9 about the split: for a URL string that contains "/", the
host is the text before the first "/" and the page is the text after it. -/
theorem split_host_page_slash (url : List Char) (h : '/' ∈ c_string url) :
    ∃ host page, split_host_page (c_string url) = (host, some page) ∧
      c_string url = host ++ '/' :: page ∧ '/' ∉ host := by
  obtain ⟨host, page, h1, h2, h3⟩ := strstr_slash_some (c_string url) h (c_string_no_nul url)
  refine ⟨host, page, ?_, h2, h3⟩
  unfold split_host_page
  rw [h1]
  simp [h2]

/-- The part of claim C9 about `http_url`: for a URL string without "/" (that fits
the `host` buffer) it returns NULL and sends no request. -/
theorem http_url_no_slash (server : Server) (url range : List Char) (world : World)
    (h : '/' ∉ c_string url) (hfit : (c_string url).length < BUF_SIZE) :
    ∃ world2, http_url server url range world = some (none, world2) ∧
      world2.sent = world.sent ∧ world2.max_chunk_size = world.max_chunk_size := by
  refine ⟨{ world with
    stderr := world.stderr ++
      ["could not split url into host/page ".toList ++ c_string url ++ "\n".toList] },
    ?_, rfl, rfl⟩
  unfold http_url split_host_page
  rw [if_pos hfit, strstr_slash_none (c_string url) h]

/-- The defect behind claim C9 in general: for a URL string without "/", whenever
`get_num_tasks` returns it has sent the probe "HEAD /(null) ..." to the whole URL
taken as host name. -/
theorem get_num_tasks_no_slash_sends_probe (server : Server) (memory : Memory)
    (url : List Char) (threads : Int) (world world2 : World) (n : Int)
    (h : '/' ∉ c_string url)
    (hret : get_num_tasks server memory url threads world = some (n, world2)) :
    world2.sent = world.sent ++
      [{ host := c_string url, port := 80,
         message := "HEAD /(null) HTTP/1.0\r\nHost: ".toList ++ c_string url ++
           "\r\n\r\n".toList }] := by
  unfold get_num_tasks at hret
  cases hp : head_probe server url world with
  | none => rw [hp] at hret; simp at hret
  | some r =>
    obtain ⟨data, world1⟩ := r
    have hsent : world1.sent = world.sent ++
        [{ host := c_string url, port := 80,
           message := "HEAD /(null) HTTP/1.0\r\nHost: ".toList ++ c_string url ++
             "\r\n\r\n".toList }] := by
      unfold head_probe split_host_page at hp
      rw [strstr_slash_none (c_string url) h] at hp
      simp only at hp
      split at hp
      · split at hp
        · split at hp
          · rename_i data' hs
            simp only [Option.some.injEq, Prod.mk.injEq] at hp
            rw [← hp.2]
            simp
          · simp at hp
        · simp at hp
      · simp at hp
    rw [hp] at hret
    simp only at hret
    cases hl : content_length memory.worker (data ++ memory.after_buffer) with
    | none => rw [hl] at hret; simp at hret
    | some L =>
      rw [hl] at hret
      simp only at hret
      split at hret
      · simp only [Option.some.injEq, Prod.mk.injEq] at hret
        rw [← hret.2]; exact hsent
      · split at hret
        · simp at hret
        · simp only [Option.some.injEq, Prod.mk.injEq] at hret
          rw [← hret.2]; exact hsent

/-- Claim C9 at the failing input "example.com", a URL without "/": `http_url`
returns NULL without a request, but `get_num_tasks` only reports the URL on `stderr`
and carries on: it sends the probe "HEAD /(null) ..." to the host "example.com" and
returns chunk count 2 with chunk size 501. -/
theorem get_num_tasks_probes_unsplit_url :
    '/' ∉ "example.com".toList ∧
      http_url (fixed_server response_1000_ranges) "example.com".toList "0-499".toList
          World.initial =
        some (none,
          { max_chunk_size := 0, sent := [],
            stderr := ["could not split url into host/page example.com\n".toList] }) ∧
      get_num_tasks (fixed_server response_1000_ranges) Memory.zeroed "example.com".toList 2
          World.initial =
        some (2,
          { max_chunk_size := 501
            sent := [{ host := "example.com".toList, port := 80,
                       message := "HEAD /(null) HTTP/1.0\r\nHost: example.com\r\n\r\n".toList }]
            stderr := ["could not split url into host/page example.com\n".toList] }) := by
  refine ⟨by decide, by decide, by decide⟩

end Downloader
